import Mathlib

/-!
# Verification of the autoappv2 script-to-transcript alignment and clip-synthesis pipeline

A shallow embedding, in Lean 4, of the core algorithms of the repository:

* `src/python/_seq.py` — text normalizer (`_clean_text`), script parser
  (`_parse_script`) and the greedy sequence aligner (`_match_words_to_script`);
* `src/python/process_task.py` — the per-segment cutting loops
  (`_cutting_loop`, `_image_flow_loop`) and the audio re-encode retry command
  construction;
* `src/python/safe_kernel.py` — the cancellable external-process execution
  kernel (`execute_safe`, stream mode) with its stop/timeout polling loop;
* `src/python/engines/sk3_image_flow.py` — the script-parse guard of
  `process_image_flow`.

Pure functions are translated as Lean functions; the effectful loops are
translated as functions of an explicit environment (an oracle giving the
success/failure of each external call and the value of the stop flag at each
polling point), so that each control path of the Python source corresponds to
one branch of the Lean definition.  Python strings are `String` (length =
number of code points, as `len` in Python); Python floats for time stamps are
modelled as rationals `ℚ`.
-/

namespace AutoApp

/-! ## Text normalizer (`_seq.py`, `_clean_text`)

`_clean_text` lower-cases its input and deletes a fixed set of punctuation
characters (the regex character class
`[.,\/#!$%\^&\*;:\x7b\x7d=\-_\x60~()。、？「」…!]`).  Case-folding is modelled
per character by the ASCII case map (`A`–`Z` ↦ `a`–`z`), which is Python's
`str.lower` on the character range the punctuation set and the matching logic
operate on. -/

/-- Code points of the characters removed by `_clean_text`'s regex:
`. , / # ! $ % ^ & * ; : { } = - _ ` ~ ( )` plus the CJK marks
`。 、 ？ 「 」 …` (written numerically to keep the set exact). -/
def punctCodes : List Nat :=
  [46, 44, 47, 35, 33, 36, 37, 94, 38, 42, 59, 58, 123, 125, 61, 45, 95,
   96, 126, 40, 41, 12290, 12289, 65311, 12300, 12301, 8230]

/-- Membership in the removed-punctuation set. -/
def isPunct (c : Char) : Bool := punctCodes.contains c.toNat

/-- Python `str.lower`, per character (ASCII case map). -/
def pyLower (c : Char) : Char :=
  if 65 ≤ c.toNat ∧ c.toNat ≤ 90 then Char.ofNat (c.toNat + 32) else c

/-- `_clean_text` on a list of characters: lower-case, then delete the
punctuation characters. -/
def cleanList (l : List Char) : List Char :=
  (l.map pyLower).filter (fun c => !(isPunct c))

/-- `_clean_text(text)`: `text.lower()` followed by
`re.sub(r"[...]", "", ·)` over the punctuation class. -/
def cleanText (s : String) : String := String.mk (cleanList s.data)

theorem pyLower_idem (c : Char) : pyLower (pyLower c) = pyLower c := by
  unfold pyLower
  by_cases h : 65 ≤ c.toNat ∧ c.toNat ≤ 90
  · rw [if_pos h]
    have hv : (Char.ofNat (c.toNat + 32)).toNat = c.toNat + 32 := by
      have h1 : 97 ≤ c.toNat + 32 := by omega
      have h2 : c.toNat + 32 ≤ 122 := by omega
      interval_cases h3 : c.toNat + 32 <;> decide
    rw [if_neg (by omega)]
  · rw [if_neg h, if_neg h]

theorem cleanList_idem (l : List Char) : cleanList (cleanList l) = cleanList l := by
  unfold cleanList
  have hmap : ((l.map pyLower).filter (fun c => !(isPunct c))).map pyLower
      = (l.map pyLower).filter (fun c => !(isPunct c)) := by
    have : ∀ c ∈ (l.map pyLower).filter (fun c => !(isPunct c)), pyLower c = id c := by
      intro c hc
      have hc' := List.mem_of_mem_filter hc
      rcases List.mem_map.1 hc' with ⟨a, _, rfl⟩
      exact pyLower_idem a
    rw [List.map_congr_left this, List.map_id]
  rw [hmap, List.filter_filter]
  exact List.filter_congr (by intro c _; cases isPunct c <;> rfl)

/-- **C8** — The text normalizer is idempotent: for every string `s`,
`_clean_text(_clean_text(s)) = _clean_text(s)`. -/
theorem c8_clean_text_idempotent (s : String) : cleanText (cleanText s) = cleanText s :=
  congrArg String.mk (cleanList_idem s.data)

/-! ## Script parser (`_seq.py`, `_parse_script`)

`_parse_script` evaluates `re.findall(r"\[[Vv](\d+)\]\s*([^\[]+)", content, re.DOTALL)`
and returns `[(int(id), text.strip())]` per match.  The scan below reproduces
the left-to-right, non-overlapping matching of `re.findall` for this pattern:
at a `[` it tries `V`/`v`, one or more digits, `]`, then the maximal run of
characters other than `[`; the `\s*` eats the leading whitespace of that run,
giving back one character when the whole run is whitespace (so that `[^\[]+`
can still match); if the candidate fails the scan resumes one character
further on, and after a match it resumes after the run. -/

/-- Whitespace as matched by `\s` / stripped by `str.strip` (ASCII range). -/
def isSpaceChar (c : Char) : Bool :=
  c = ' ' ∨ c = '\t' ∨ c = '\n' ∨ c = '\x0d' ∨ c = '\x0b' ∨ c = '\x0c'

/-- `int` of a digit run. -/
def natOfDigits (ds : List Char) : Nat :=
  ds.foldl (fun acc c => acc * 10 + (c.toNat - 48)) 0

/-- `str.strip()`: drop whitespace at both ends. -/
def pyStrip (l : List Char) : List Char :=
  ((l.dropWhile isSpaceChar).reverse.dropWhile isSpaceChar).reverse

/-- One scanning pass of the `_parse_script` regex (fuel-indexed; the fuel is
always at least the length of the remaining text plus one, and each step
consumes at least one character). -/
def parseScriptAux : Nat → List Char → List (Nat × String)
  | 0, _ => []
  | _ + 1, [] => []
  | fuel + 1, c :: cs =>
    if c = '[' then
      match cs with
      | [] => []
      | v :: cs2 =>
        if v = 'V' ∨ v = 'v' then
          let ds := cs2.takeWhile Char.isDigit
          let cs3 := cs2.dropWhile Char.isDigit
          if ds = [] then parseScriptAux fuel cs
          else
            match cs3 with
            | ']' :: cs4 =>
              let run := cs4.takeWhile (fun d => !(d = '['))
              let cs5 := cs4.dropWhile (fun d => !(d = '['))
              if run = [] then parseScriptAux fuel cs
              else
                let wlen := (run.takeWhile isSpaceChar).length
                let group2 := run.drop (min wlen (run.length - 1))
                (natOfDigits ds, String.mk (pyStrip group2)) :: parseScriptAux fuel cs5
            | _ => parseScriptAux fuel cs
        else parseScriptAux fuel cs
    else parseScriptAux fuel cs

/-- `_parse_script(content)`. -/
def parseScript (content : String) : List (Nat × String) :=
  parseScriptAux (content.data.length + 1) content.data

/-! ## Script-parse guard of `process_image_flow` (`engines/sk3_image_flow.py`)

```
script_items = parse_script(f.read())
if not script_items:
    raise RuntimeError("Script parse empty. Format: [V1] ... [V2] ...")
```

All failures in this code base are `RuntimeError`s distinguished by their
message; the message below is the unique one raised for a script that parses
to zero items, i.e. the realization of the spec's `ScriptFormatError`. -/

/-- The error raised when the script parses to zero items (the spec's
`ScriptFormatError`). -/
def scriptFormatErrorMsg : String := "Script parse empty. Format: [V1] ... [V2] ..."

/-- The parse stage of `process_image_flow`: parse, then fail when no item
was produced. -/
def imageFlowParseScript (content : String) : Except String (List (Nat × String)) :=
  let items := parseScript content
  if items = [] then Except.error scriptFormatErrorMsg else Except.ok items

/-- **C5** — When the script parser produces zero items from non-empty input
text, the parse stage of the image-flow engine fails with the script-format
error (the unique `RuntimeError("Script parse empty. ...")`, the code's
realization of the spec's `ScriptFormatError`); it never returns an empty
item list, and no other error is ever raised by this stage. -/
theorem c5_empty_parse_fails (content : String) (hne : content ≠ "")
    (hz : parseScript content = []) :
    imageFlowParseScript content = Except.error scriptFormatErrorMsg
      ∧ (∀ c : String, imageFlowParseScript c ≠ Except.ok [])
      ∧ (∀ (c e : String), imageFlowParseScript c = Except.error e → e = scriptFormatErrorMsg) := by
  refine ⟨by simp [imageFlowParseScript, hz], ?_, ?_⟩
  · intro c h
    unfold imageFlowParseScript at h
    by_cases hc : parseScript c = []
    · simp [hc] at h
    · simp [hc] at h
  · intro c e h
    unfold imageFlowParseScript at h
    by_cases hc : parseScript c = []
    · simp [hc] at h
      exact h.symm
    · simp [hc] at h

/-- Witness for C5 at the concrete non-empty input `"hello world"`, which
contains no `[V...]` marker and hence parses to zero items. -/
theorem c5_empty_parse_fails_witness :
    imageFlowParseScript "hello world" = Except.error scriptFormatErrorMsg
      ∧ (∀ c : String, imageFlowParseScript c ≠ Except.ok [])
      ∧ (∀ (c e : String), imageFlowParseScript c = Except.error e → e = scriptFormatErrorMsg) :=
  c5_empty_parse_fails "hello world" (by decide) (by decide)

/-! ## Sequence aligner (`_seq.py`, `_match_words_to_script`)

The aligner walks a single word cursor over `all_words` while iterating over
the script items.  Each word-list entry is either a dict (fields `word`,
`start`, `end`, any of which may be absent — `start`/`end` are modelled as
`Option ℚ`, `word` defaults to `""` as `w.get("word", "")` does) or a
non-dict value, which is skipped for collection although the cursor still
advances past it.

`difflib.SequenceMatcher(None, a, b).ratio()` is kept abstract: the model is
parametrized by a function `ratio : String → String → ℚ`, and every theorem
below holds for (or is witnessed by) an arbitrary such function — none of the
verified control-flow properties depends on the value the ratio takes.

To make the claims about the loop observable, the collection loop also
returns a trace: the buffer length at the top of every executed iteration
(`headLens`) and one record per computed similarity comparison (`comps`). -/

/-- One entry of `all_words`. -/
inductive WordEntry where
  | dict (word : String) (startT : Option ℚ) (endT : Option ℚ)
  | other
deriving DecidableEq, Repr

/-- One similarity comparison performed by the loop: the raw accumulated
buffer, its normalization (first argument of `SequenceMatcher`), and the
normalized target (second argument). -/
structure Comparison where
  raw : String
  cleaned : String
  target : String
deriving DecidableEq, Repr

/-- Trace of one run of the word-accumulation loop. -/
structure CollectTrace where
  headLens : List Nat
  comps : List Comparison
deriving DecidableEq, Repr, Inhabited

/-- The similarity threshold `0.85`, as the reduced rational `17/20` (written
in normal form so that runs of the model evaluate inside the kernel). -/
def ratioThreshold : ℚ := ⟨17, 20, by norm_num, by norm_num⟩

theorem ratioThreshold_eq : ratioThreshold = 85 / 100 := by
  show Rat.mk' 17 20 _ _ = 85 / 100
  rw [Rat.mk'_eq_divInt, Rat.divInt_eq_div]
  norm_num

/-- Result of the word-accumulation loop: collected (index, word) pairs,
the remaining word list (everything past the final cursor), the final raw
buffer, and the trace. -/
structure CollectResult where
  cur : List (Nat × WordEntry)
  rest : List (Nat × WordEntry)
  collected : String
  tr : CollectTrace
deriving DecidableEq, Repr

/-- `collected += " " + str(w.get("word", ""))` — only for dict entries. -/
def collectAppend (collected : String) (w : WordEntry) : String :=
  match w with
  | .dict wd _ _ => collected ++ " " ++ wd
  | .other => collected

/-- `current_words.append(w)` — only for dict entries. -/
def curAppend (cur : List (Nat × WordEntry)) (i : Nat) (w : WordEntry) :
    List (Nat × WordEntry) :=
  match w with
  | .dict _ _ _ => cur ++ [(i, w)]
  | .other => cur

/-- The inner `while word_ptr < total_words` loop of `_match_words_to_script`
for one script item.  In source order: append the word (dict entries only)
and advance the cursor; break when the buffer exceeds `MAX_COLLECTED_LEN =
5000`; skip the comparison while `len(collected) < len(target) * 0.5` (for
integer lengths, `2 * len(collected) < len(target)`); otherwise compute the
ratio of the cleaned buffer against the target and break when it exceeds
`0.85` or the cleaned buffer overruns the target by more than `20`. -/
def collectWords (ratio : String → String → ℚ) (target : String) :
    List (Nat × WordEntry) → String → List (Nat × WordEntry) → CollectTrace →
    CollectResult
  | [], collected, cur, tr => ⟨cur, [], collected, tr⟩
  | (i, w) :: rest, collected, cur, tr =>
    let tr1 : CollectTrace := ⟨tr.headLens ++ [collected.length], tr.comps⟩
    let collected1 := collectAppend collected w
    let cur1 := curAppend cur i w
    if 5000 < collected1.length then ⟨cur1, rest, collected1, tr1⟩
    else if 2 * collected1.length < target.length then
      collectWords ratio target rest collected1 cur1 tr1
    else
      let cl := cleanText collected1
      let tr2 : CollectTrace := ⟨tr1.headLens, tr1.comps ++ [⟨collected1, cl, target⟩]⟩
      if ratioThreshold < ratio cl target ∨ target.length + 20 < cl.length then
        ⟨cur1, rest, collected1, tr2⟩
      else collectWords ratio target rest collected1 cur1 tr2

/-- One matched segment, together with the word-list indices it collected
(observable form of the word-cursor range). -/
structure Seg where
  vid : Nat
  startT : ℚ
  endT : ℚ
  text : String
  idxs : List Nat
deriving DecidableEq, Repr

/-- The outer `for item_idx, (vid, text) in enumerate(script_items)` loop of
`_match_words_to_script`, over the remaining word list (the suffix of
`all_words.enum` from the cursor on).  An item with empty normalized target
is skipped before the loop touches the cursor; an item that collects no
words, or whose first/last collected entries fail the dict re-check, is
skipped after the cursor has advanced.  Matched segments carry
`float(first.get("start", 0))` and `float(last.get("end", start + 0.1))`.
(The periodic `gc.collect()` has no observable effect and is not modelled.) -/
def matchAux (ratio : String → String → ℚ) :
    List (Nat × String) → List (Nat × WordEntry) → List Seg × List CollectTrace
  | [], _ => ([], [])
  | (vid, text) :: items, ws =>
    let target := cleanText text
    if target = "" then matchAux ratio items ws
    else
      let r := collectWords ratio target ws "" [] ⟨[], []⟩
      let tailRes := matchAux ratio items r.rest
      match r.cur.head?, r.cur.getLast? with
      | some (_, WordEntry.dict _ st _), some (_, WordEntry.dict _ _ en) =>
        let sTime := st.getD 0
        let eTime := en.getD (sTime + 1 / 10)
        (⟨vid, sTime, eTime, text, r.cur.map Prod.fst⟩ :: tailRes.1, r.tr :: tailRes.2)
      | _, _ => (tailRes.1, r.tr :: tailRes.2)

/-- `_match_words_to_script(all_words, script_items)`, with the word list
indexed by position so that the cursor is observable. -/
def matchWordsToScript (ratio : String → String → ℚ) (allWords : List WordEntry)
    (items : List (Nat × String)) : List Seg × List CollectTrace :=
  matchAux ratio items allWords.enum

/-- The tuples `(vid, start_time, end_time, text)` actually returned by the
Python function. -/
def matchTuples (ratio : String → String → ℚ) (allWords : List WordEntry)
    (items : List (Nat × String)) : List (Nat × ℚ × ℚ × String) :=
  (matchWordsToScript ratio allWords items).1.map fun g => (g.vid, g.startT, g.endT, g.text)

/-- A concrete stand-in for `SequenceMatcher.ratio` usable in witnesses (the
theorems themselves quantify over arbitrary ratio functions). -/
def ratioZero : String → String → ℚ := fun _ _ => 0

/-- Helper: an item whose normalized target is empty is a no-op of the outer
loop (`if not target: continue` fires before the cursor is touched). -/
theorem matchAux_empty_target (ratio : String → String → ℚ) (vid : Nat)
    (text : String) (items : List (Nat × String)) (ws : List (Nat × WordEntry))
    (h : cleanText text = "") :
    matchAux ratio ((vid, text) :: items) ws = matchAux ratio items ws := by
  simp [matchAux, h]

/-- **C9** — A script item whose normalized text is empty is skipped before
the word cursor is touched: processing it emits no segment, records no trace,
and leaves the remaining word list and everything downstream exactly as if
the item were absent. -/
theorem c9_empty_target_skipped (ratio : String → String → ℚ) (vid : Nat)
    (text : String) (items : List (Nat × String)) (ws : List (Nat × WordEntry))
    (h : cleanText text = "") :
    matchAux ratio ((vid, text) :: items) ws = matchAux ratio items ws :=
  matchAux_empty_target ratio vid text items ws h

/-- Witness for C9: the item `(3, "!!!")` normalizes to the empty string and
is skipped, the cursor and output being those of the remaining script. -/
theorem c9_empty_target_skipped_witness :
    matchAux ratioZero ((3, "!!!") :: [(1, "hi")])
        [(0, WordEntry.dict "hi" (some 0) (some 1))]
      = matchAux ratioZero [(1, "hi")] [(0, WordEntry.dict "hi" (some 0) (some 1))] :=
  c9_empty_target_skipped ratioZero 3 "!!!" [(1, "hi")]
    [(0, WordEntry.dict "hi" (some 0) (some 1))] (by decide)

/-! ## Safety cap (C4) and comparison gate (C3) -/

theorem collect_headLens_bound (ratio : String → String → ℚ) (target : String) :
    ∀ (ws : List (Nat × WordEntry)) (collected : String)
      (cur : List (Nat × WordEntry)) (tr : CollectTrace),
      collected.length ≤ 5000 → (∀ n ∈ tr.headLens, n ≤ 5000) →
      ∀ n ∈ (collectWords ratio target ws collected cur tr).tr.headLens, n ≤ 5000 := by
  intro ws
  induction ws with
  | nil => intro collected cur tr _ htr; simpa [collectWords] using htr
  | cons hd rest ih =>
    obtain ⟨i, w⟩ := hd
    intro collected cur tr hcol htr
    have htr1 : ∀ n ∈ tr.headLens ++ [collected.length], n ≤ 5000 := by
      intro n hn
      rcases List.mem_append.1 hn with h | h
      · exact htr n h
      · simp at h; omega
    simp only [collectWords]
    by_cases h1 : 5000 < (collectAppend collected w).length
    · simpa [h1] using htr1
    · rw [if_neg h1]
      have hcol1 : (collectAppend collected w).length ≤ 5000 := by omega
      by_cases h2 : 2 * (collectAppend collected w).length < target.length
      · rw [if_pos h2]
        exact ih _ _ _ hcol1 htr1
      · rw [if_neg h2]
        by_cases h3 : ratioThreshold < ratio (cleanText (collectAppend collected w)) target
            ∨ target.length + 20 < (cleanText (collectAppend collected w)).length
        · simpa [h3] using htr1
        · rw [if_neg h3]
          exact ih _ _ _ hcol1 htr1

theorem matchAux_headLens_bound (ratio : String → String → ℚ) :
    ∀ (items : List (Nat × String)) (ws : List (Nat × WordEntry)),
      ∀ tr ∈ (matchAux ratio items ws).2, ∀ n ∈ tr.headLens, n ≤ 5000 := by
  intro items
  induction items with
  | nil => intro ws tr htr; simp [matchAux] at htr
  | cons hd rest ih =>
    obtain ⟨vid, text⟩ := hd
    intro ws tr htr
    by_cases h : cleanText text = ""
    · rw [matchAux_empty_target ratio vid text rest ws h] at htr
      exact ih ws tr htr
    · simp only [matchAux, if_neg h] at htr
      have hbound := collect_headLens_bound ratio (cleanText text) ws "" [] ⟨[], []⟩
        (by simp) (by simp)
      rcases hx : (collectWords ratio (cleanText text) ws "" [] ⟨[], []⟩).cur.head? with _ | ⟨j, w⟩
      · rw [hx] at htr
        simp only [List.mem_cons] at htr
        rcases htr with rfl | htr
        · exact hbound
        · exact ih _ tr htr
      · rcases w with ⟨wd, st, en⟩ | _
        · rcases hy : (collectWords ratio (cleanText text) ws "" [] ⟨[], []⟩).cur.getLast?
            with _ | ⟨j2, w2⟩
          · rw [hx, hy] at htr
            simp only [List.mem_cons] at htr
            rcases htr with rfl | htr
            · exact hbound
            · exact ih _ tr htr
          · rcases w2 with ⟨wd2, st2, en2⟩ | _ <;>
            · rw [hx, hy] at htr
              simp only [List.mem_cons] at htr
              rcases htr with rfl | htr
              · exact hbound
              · exact ih _ tr htr
        · rw [hx] at htr
          simp only [List.mem_cons] at htr
          rcases htr with rfl | htr
          · exact hbound
          · exact ih _ tr htr

/-- **C4** — The accumulated buffer never exceeds the 5000-character safety
cap at the start of any word-accumulation iteration in any run of the
aligner; and as soon as an append drives the buffer over the cap, the loop
exits immediately with that buffer accepted as-is (the collected words and
the remaining word list are exactly those at the moment of the overflow). -/
theorem c4_safety_cap :
    (∀ (ratio : String → String → ℚ) (words : List WordEntry)
       (items : List (Nat × String)),
       ∀ tr ∈ (matchWordsToScript ratio words items).2, ∀ n ∈ tr.headLens, n ≤ 5000)
    ∧ (∀ (ratio : String → String → ℚ) (target : String) (i : Nat) (w : WordEntry)
         (rest : List (Nat × WordEntry)) (collected : String)
         (cur : List (Nat × WordEntry)) (tr : CollectTrace),
         5000 < (collectAppend collected w).length →
         collectWords ratio target ((i, w) :: rest) collected cur tr =
           ⟨curAppend cur i w, rest, collectAppend collected w,
            ⟨tr.headLens ++ [collected.length], tr.comps⟩⟩) := by
  constructor
  · intro ratio words items tr htr
    exact matchAux_headLens_bound ratio items words.enum tr htr
  · intro ratio target i w rest collected cur tr h1
    simp [collectWords, h1]

/-- A word of 5000 characters, used to overflow the cap in the C4 witness. -/
def capWord : String := String.mk (List.replicate 5000 'a')

theorem capWord_length : capWord.length = 5000 := by
  show (String.mk (List.replicate 5000 'a')).length = 5000
  rw [String.length_mk, List.length_replicate]

/-- Witness for C4: appending `capWord` to the empty buffer gives 5001
characters, and the loop exits at once with the buffer accepted as-is. -/
theorem c4_safety_cap_witness :
    collectWords ratioZero "abc" [(0, WordEntry.dict capWord none none)] "" [] ⟨[], []⟩ =
      ⟨curAppend [] 0 (WordEntry.dict capWord none none), [],
       collectAppend "" (WordEntry.dict capWord none none),
       ⟨[String.length ""], []⟩⟩ :=
  c4_safety_cap.2 ratioZero "abc" 0 (WordEntry.dict capWord none none) [] "" [] ⟨[], []⟩
    (by
      show 5000 < ("" ++ " " ++ capWord).length
      rw [String.length_append, String.length_append, capWord_length]
      decide)

theorem collect_comps_inv (ratio : String → String → ℚ) (target : String) :
    ∀ (ws : List (Nat × WordEntry)) (collected : String)
      (cur : List (Nat × WordEntry)) (tr : CollectTrace),
      (∀ c ∈ tr.comps, c.target.length ≤ 2 * c.raw.length ∧ c.cleaned = cleanText c.raw) →
      ∀ c ∈ (collectWords ratio target ws collected cur tr).tr.comps,
        c.target.length ≤ 2 * c.raw.length ∧ c.cleaned = cleanText c.raw := by
  intro ws
  induction ws with
  | nil => intro collected cur tr htr; simpa [collectWords] using htr
  | cons hd rest ih =>
    obtain ⟨i, w⟩ := hd
    intro collected cur tr htr
    simp only [collectWords]
    by_cases h1 : 5000 < (collectAppend collected w).length
    · simpa [h1] using htr
    · rw [if_neg h1]
      by_cases h2 : 2 * (collectAppend collected w).length < target.length
      · rw [if_pos h2]
        exact ih _ _ _ htr
      · rw [if_neg h2]
        have htr2 : ∀ c ∈ tr.comps ++
            [⟨collectAppend collected w, cleanText (collectAppend collected w), target⟩],
            c.target.length ≤ 2 * c.raw.length ∧ c.cleaned = cleanText c.raw := by
          intro c hc
          rcases List.mem_append.1 hc with h | h
          · exact htr c h
          · simp at h
            subst h
            refine ⟨?_, rfl⟩
            show target.length ≤ 2 * (collectAppend collected w).length
            omega
        by_cases h3 : ratioThreshold < ratio (cleanText (collectAppend collected w)) target
            ∨ target.length + 20 < (cleanText (collectAppend collected w)).length
        · simpa [h3] using htr2
        · rw [if_neg h3]
          exact ih _ _ _ htr2

theorem matchAux_comps_inv (ratio : String → String → ℚ) :
    ∀ (items : List (Nat × String)) (ws : List (Nat × WordEntry)),
      ∀ tr ∈ (matchAux ratio items ws).2, ∀ c ∈ tr.comps,
        c.target.length ≤ 2 * c.raw.length ∧ c.cleaned = cleanText c.raw := by
  intro items
  induction items with
  | nil => intro ws tr htr; simp [matchAux] at htr
  | cons hd rest ih =>
    obtain ⟨vid, text⟩ := hd
    intro ws tr htr
    by_cases h : cleanText text = ""
    · rw [matchAux_empty_target ratio vid text rest ws h] at htr
      exact ih ws tr htr
    · simp only [matchAux, if_neg h] at htr
      have hbound := collect_comps_inv ratio (cleanText text) ws "" [] ⟨[], []⟩ (by simp)
      rcases hx : (collectWords ratio (cleanText text) ws "" [] ⟨[], []⟩).cur.head? with _ | ⟨j, w⟩
      · rw [hx] at htr
        simp only [List.mem_cons] at htr
        rcases htr with rfl | htr
        · exact hbound
        · exact ih _ tr htr
      · rcases w with ⟨wd, st, en⟩ | _
        · rcases hy : (collectWords ratio (cleanText text) ws "" [] ⟨[], []⟩).cur.getLast?
            with _ | ⟨j2, w2⟩
          · rw [hx, hy] at htr
            simp only [List.mem_cons] at htr
            rcases htr with rfl | htr
            · exact hbound
            · exact ih _ tr htr
          · rcases w2 with ⟨wd2, st2, en2⟩ | _ <;>
            · rw [hx, hy] at htr
              simp only [List.mem_cons] at htr
              rcases htr with rfl | htr
              · exact hbound
              · exact ih _ tr htr
        · rw [hx] at htr
          simp only [List.mem_cons] at htr
          rcases htr with rfl | htr
          · exact hbound
          · exact ih _ tr htr

/-- **C3, as stated, is false** — the half-length gate of
`_match_words_to_script` compares the length of the *raw* accumulated buffer
(`len(collected)`) against the normalized target, not the length of the
normalized buffer.  Concrete run: target `"abcdefgh"` (normalized length 8)
and the single word `"!!!!"`: the raw buffer `" !!!!"` has length 5, so
`5 ≥ 8 * 0.5` passes the gate and a similarity comparison is performed, yet
the normalized buffer `" "` has length 1 < 4 — a comparison happens while the
normalized buffer is shorter than half the target. -/
theorem c3_counterexample :
    ∃ tr ∈ (matchWordsToScript ratioZero [WordEntry.dict "!!!!" (some 0) (some 1)]
        [(1, "abcdefgh")]).2,
      ∃ c ∈ tr.comps, 2 * c.cleaned.length < c.target.length := by decide

/-- **C3 (amended)** — The similarity ratio is computed only once the *raw*
accumulated buffer (separator-joined words, before normalization) has reached
at least half the length of the normalized target: every comparison record
`c` of every run satisfies `len(target) ≤ 2 * len(raw buffer)` (and its first
`SequenceMatcher` argument is the normalization of that raw buffer).  The
normalized buffer itself may still be shorter than half the target when the
comparison happens (see the counterexample). -/
theorem c3_half_length_gate_amended (ratio : String → String → ℚ)
    (words : List WordEntry) (items : List (Nat × String))
    (tr : CollectTrace) (htr : tr ∈ (matchWordsToScript ratio words items).2)
    (c : Comparison) (hc : c ∈ tr.comps) :
    c.target.length ≤ 2 * c.raw.length ∧ c.cleaned = cleanText c.raw :=
  matchAux_comps_inv ratio items words.enum tr htr c hc

/-- Witness for the amended C3 at the counterexample run: the recorded
comparison has raw buffer `" !!!!"` (length 5) against target `"abcdefgh"`
(length 8), and `8 ≤ 2 * 5`. -/
theorem c3_half_length_gate_amended_witness :
    (⟨" !!!!", " ", "abcdefgh"⟩ : Comparison) ∈
        ((matchWordsToScript ratioZero [WordEntry.dict "!!!!" (some 0) (some 1)]
          [(1, "abcdefgh")]).2.headI).comps
      ∧ ((8 : Nat) ≤ 2 * 5 ∧ (" " : String) = cleanText " !!!!") := by
  constructor
  · decide
  · exact c3_half_length_gate_amended ratioZero [WordEntry.dict "!!!!" (some 0) (some 1)]
      [(1, "abcdefgh")]
      ((matchWordsToScript ratioZero [WordEntry.dict "!!!!" (some 0) (some 1)]
        [(1, "abcdefgh")]).2.headI)
      (by decide) ⟨" !!!!", " ", "abcdefgh"⟩ (by decide)

/-! ## Monotone word cursor (C2)

The collected indices of the emitted segments, concatenated in emission
order, form a sublist of the (increasing) index sequence of the word list:
each item consumes a prefix of the remaining words and passes the untouched
suffix on, so the cursor never rewinds. -/

theorem curAppend_split (cur : List (Nat × WordEntry)) (i : Nat) (w : WordEntry) :
    ∃ l0, curAppend cur i w = cur ++ l0 ∧ l0.Sublist [(i, w)] := by
  cases w with
  | dict a b c => exact ⟨[(i, WordEntry.dict a b c)], rfl, List.Sublist.refl _⟩
  | other => exact ⟨[], (List.append_nil cur).symm, List.nil_sublist _⟩

theorem collect_consume (ratio : String → String → ℚ) (target : String) :
    ∀ (ws : List (Nat × WordEntry)) (collected : String)
      (cur : List (Nat × WordEntry)) (tr : CollectTrace),
      ∃ k l, (collectWords ratio target ws collected cur tr).rest = ws.drop k ∧
        (collectWords ratio target ws collected cur tr).cur = cur ++ l ∧
        l.Sublist (ws.take k) := by
  intro ws
  induction ws with
  | nil =>
    intro collected cur tr
    exact ⟨0, [], by simp [collectWords], by simp [collectWords], by simp⟩
  | cons hd rest ih =>
    obtain ⟨i, w⟩ := hd
    intro collected cur tr
    obtain ⟨l0, hl0, hl0s⟩ := curAppend_split cur i w
    simp only [collectWords]
    by_cases h1 : 5000 < (collectAppend collected w).length
    · rw [if_pos h1]
      exact ⟨1, l0, by simp, by simpa using hl0, by simpa using hl0s⟩
    · rw [if_neg h1]
      by_cases h2 : 2 * (collectAppend collected w).length < target.length
      · rw [if_pos h2]
        obtain ⟨k, l, hrest, hcur, hsub⟩ := ih (collectAppend collected w)
          (curAppend cur i w) ⟨tr.headLens ++ [collected.length], tr.comps⟩
        refine ⟨k + 1, l0 ++ l, by simpa using hrest, ?_, ?_⟩
        · rw [hcur, hl0, List.append_assoc]
        · simpa using List.Sublist.append hl0s hsub
      · rw [if_neg h2]
        by_cases h3 : ratioThreshold < ratio (cleanText (collectAppend collected w)) target
            ∨ target.length + 20 < (cleanText (collectAppend collected w)).length
        · rw [if_pos h3]
          exact ⟨1, l0, by simp, by simpa using hl0, by simpa using hl0s⟩
        · rw [if_neg h3]
          obtain ⟨k, l, hrest, hcur, hsub⟩ := ih (collectAppend collected w)
            (curAppend cur i w)
            ⟨tr.headLens ++ [collected.length],
             tr.comps ++ [⟨collectAppend collected w,
               cleanText (collectAppend collected w), target⟩]⟩
          refine ⟨k + 1, l0 ++ l, by simpa using hrest, ?_, ?_⟩
          · rw [hcur, hl0, List.append_assoc]
          · simpa using List.Sublist.append hl0s hsub

theorem matchAux_flat_sublist (ratio : String → String → ℚ) :
    ∀ (items : List (Nat × String)) (ws : List (Nat × WordEntry)),
      (((matchAux ratio items ws).1.map Seg.idxs).flatten).Sublist (ws.map Prod.fst) := by
  intro items
  induction items with
  | nil => intro ws; simp [matchAux]
  | cons hd rest ih =>
    obtain ⟨vid, text⟩ := hd
    intro ws
    by_cases h : cleanText text = ""
    · rw [matchAux_empty_target ratio vid text rest ws h]
      exact ih ws
    · simp only [matchAux, if_neg h]
      obtain ⟨k, l, hrest, hcur, hsub⟩ :=
        collect_consume ratio (cleanText text) ws "" [] ⟨[], []⟩
      rw [List.nil_append] at hcur
      have htail : (((matchAux ratio rest
          (collectWords ratio (cleanText text) ws "" [] ⟨[], []⟩).rest).1.map
            Seg.idxs).flatten).Sublist ((ws.drop k).map Prod.fst) := by
        rw [hrest]
        exact ih _
      have hskip : (((matchAux ratio rest
          (collectWords ratio (cleanText text) ws "" [] ⟨[], []⟩).rest).1.map
            Seg.idxs).flatten).Sublist (ws.map Prod.fst) :=
        htail.trans (List.Sublist.map Prod.fst (List.drop_sublist k ws))
      have hemit : ((collectWords ratio (cleanText text) ws "" [] ⟨[], []⟩).cur.map Prod.fst
            ++ ((matchAux ratio rest
              (collectWords ratio (cleanText text) ws "" [] ⟨[], []⟩).rest).1.map
                Seg.idxs).flatten).Sublist (ws.map Prod.fst) := by
        have h1 : ((collectWords ratio (cleanText text) ws "" [] ⟨[], []⟩).cur.map
            Prod.fst).Sublist ((ws.take k).map Prod.fst) := by
          rw [hcur]
          exact List.Sublist.map Prod.fst hsub
        have h2 := List.Sublist.append h1 htail
        rwa [← List.map_append, List.take_append_drop] at h2
      rcases hx : (collectWords ratio (cleanText text) ws "" [] ⟨[], []⟩).cur.head?
        with _ | ⟨j, w⟩
      · simpa using hskip
      · rcases w with ⟨wd, st, en⟩ | _
        · rcases hy : (collectWords ratio (cleanText text) ws "" [] ⟨[], []⟩).cur.getLast?
            with _ | ⟨j2, w2⟩
          · simpa using hskip
          · rcases w2 with ⟨wd2, st2, en2⟩ | _
            · simpa using hemit
            · simpa using hskip
        · simpa using hskip

/-- **C2** — The word cursor is monotonic: in any run of the aligner, for any
word list and any script, every word index collected for segment `i+1` is at
least every word index collected for segment `i` (no word re-use, no
look-back across emitted segments). -/
theorem c2_monotonic_cursor (ratio : String → String → ℚ) (words : List WordEntry)
    (items : List (Nat × String)) (i : Nat)
    (h : i + 1 < ((matchWordsToScript ratio words items).1).length)
    (a b : Nat)
    (ha : a ∈ (((matchWordsToScript ratio words items).1).get
      ⟨i, Nat.lt_of_succ_lt h⟩).idxs)
    (hb : b ∈ (((matchWordsToScript ratio words items).1).get ⟨i + 1, h⟩).idxs) :
    a ≤ b := by
  have hs : (((matchWordsToScript ratio words items).1.map Seg.idxs).flatten).Pairwise
      (· < ·) := by
    have hr : List.Pairwise (· < ·) (words.enum.map Prod.fst) := by
      rw [List.enum_map_fst]
      exact List.pairwise_lt_range _
    exact List.Pairwise.sublist (matchAux_flat_sublist ratio items words.enum) hr
  obtain ⟨-, hpair⟩ := List.pairwise_flatten.mp hs
  have hij := List.pairwise_iff_get.mp hpair
    ⟨i, by simpa using Nat.lt_of_succ_lt h⟩ ⟨i + 1, by simpa using h⟩
    (by exact Fin.mk_lt_mk.mpr (Nat.lt_succ_self i))
  rw [List.get_map, List.get_map] at hij
  exact le_of_lt (hij a ha b hb)

/-- A concrete ratio oracle for the C2 witness: reports a high similarity
exactly on the two buffers the spec's worked example expects to match. -/
def ratioDemo : String → String → ℚ := fun c _ =>
  if c = " hello world" ∨ c = " goodbye now" then ⟨9, 10, by norm_num, by norm_num⟩ else 0

/-- The word list of the spec's worked example (integer time stamps). -/
def demoWords : List WordEntry :=
  [WordEntry.dict "hello" (some 0) (some 1), WordEntry.dict "world" (some 1) (some 2),
   WordEntry.dict "goodbye" (some 2) (some 3), WordEntry.dict "now" (some 3) (some 4)]

/-- Witness for C2 on the spec's worked example: segment 1 collects word
indices `[0, 1]`, segment 2 collects `[2, 3]`, and `1 ≤ 2` as the theorem
yields. -/
theorem c2_monotonic_cursor_witness :
    (1 ∈ (((matchWordsToScript ratioDemo demoWords
        [(1, "hello world"), (2, "goodbye now")]).1).get ⟨0, by decide⟩).idxs)
    ∧ (2 ∈ (((matchWordsToScript ratioDemo demoWords
        [(1, "hello world"), (2, "goodbye now")]).1).get ⟨1, by decide⟩).idxs)
    ∧ (1 : Nat) ≤ 2 :=
  ⟨by decide, by decide,
    c2_monotonic_cursor ratioDemo demoWords [(1, "hello world"), (2, "goodbye now")]
      0 (by decide) 1 2 (by decide) (by decide)⟩

/-! ## Process execution kernel (`safe_kernel.py`, `execute_safe`, stream mode)

The stream-mode polling loop of `execute_safe` is modelled over a trace of
polling instants (`Tick`s).  At each iteration the loop, in source order:
re-reads the stop flag (terminating the process and raising `STOPPED` when it
is set), checks the elapsed-time budget (same termination, `TIMEOUT`), then
reads one stderr line, breaking when the stream is exhausted and the process
has exited.  Termination is `proc.terminate()` followed by
`proc.wait(timeout=2)`, with `proc.kill()` only when the 2-second grace wait
fails; the actions performed are recorded in the outcome.  After the loop,
`execute_safe` re-reads the stop flag a final time (raising `STOPPED` even if
the process already exited with code 0) and only then applies the
`check`/`returncode` test. -/

/-- Actions applied to the external process on stop/timeout. -/
inductive ProcAction where
  | terminate
  | kill
deriving DecidableEq, Repr

/-- `terminate`, then `kill` only if the 2-second grace wait fails. -/
def termActions (waitOk : Bool) : List ProcAction :=
  if waitOk then [ProcAction.terminate] else [ProcAction.terminate, ProcAction.kill]

/-- One polling instant of the stream loop: the stop flag as read at the top
of the iteration, whether the timeout budget is exceeded at this instant,
whether a grace wait issued now would succeed, the stderr line read (if
any), and the exit code `proc.poll()` would report (if the process has
exited). -/
structure Tick where
  stopFlag : Bool
  timedOutNow : Bool
  waitOk : Bool
  line : Option String
  pollExit : Option Int
deriving DecidableEq, Repr

/-- Outcome of the stream-mode polling loop. -/
inductive StreamOutcome where
  | stopped (actions : List ProcAction)
  | timeout (actions : List ProcAction)
  | exited (code : Int) (stderr : List String)
  | ranOut
deriving DecidableEq, Repr

/-- The `while True` polling loop of stream mode (`ranOut` marks trace
exhaustion with the process still running — a modelling artifact, reached by
no theorem below). -/
def streamLoop : List Tick → List String → StreamOutcome
  | [], _ => StreamOutcome.ranOut
  | t :: rest, acc =>
    if t.stopFlag then StreamOutcome.stopped (termActions t.waitOk)
    else if t.timedOutNow then StreamOutcome.timeout (termActions t.waitOk)
    else
      match t.line with
      | some l => streamLoop rest (acc ++ [l])
      | none =>
        match t.pollExit with
        | some code => StreamOutcome.exited code acc
        | none => streamLoop rest acc

/-- Result of `execute_safe` (stream mode) to its caller. -/
inductive ExecResult where
  | ok (code : Int) (stderr : List String)
  | errStopped
  | errTimeout
  | errCrashed (code : Int) (stderr : List String)
  | ranOut
deriving DecidableEq, Repr

/-- `execute_safe(cmd, stream=True, check)`: entry stop check (no process is
spawned when it fires), the polling loop, the post-loop stop re-check, and
the `check and returncode != 0` test, in source order. -/
def executeSafeStream (entryStop : Bool) (ticks : List Tick) (finalStop : Bool)
    (check : Bool) : ExecResult :=
  if entryStop then ExecResult.errStopped
  else
    match streamLoop ticks [] with
    | StreamOutcome.stopped _ => ExecResult.errStopped
    | StreamOutcome.timeout _ => ExecResult.errTimeout
    | StreamOutcome.ranOut => ExecResult.ranOut
    | StreamOutcome.exited code acc =>
      if finalStop then ExecResult.errStopped
      else if check ∧ code ≠ 0 then ExecResult.errCrashed code acc
      else ExecResult.ok code acc

/-- The stop polls of one `execute_safe` call in temporal order: the entry
check, one per loop iteration, and the post-loop re-check. -/
def stopPolls (entryStop : Bool) (ticks : List Tick) (finalStop : Bool) : List Bool :=
  entryStop :: (ticks.map Tick.stopFlag ++ [finalStop])

/-- The stop flag is monotone along the polls of a run: once observed set it
stays set (cancellation is not revoked mid-run). -/
def FlagMono (polls : List Bool) : Prop :=
  ∀ i, i < polls.length → ∀ j, j < polls.length → i ≤ j →
    polls.getD i false = true → polls.getD j false = true

theorem stopPolls_length (entryStop : Bool) (ticks : List Tick) (finalStop : Bool) :
    (stopPolls entryStop ticks finalStop).length = ticks.length + 2 := by
  simp [stopPolls]

theorem stopPolls_last (entryStop : Bool) (ticks : List Tick) (finalStop : Bool) :
    (stopPolls entryStop ticks finalStop).getD (ticks.length + 1) false = finalStop := by
  show (ticks.map Tick.stopFlag ++ [finalStop]).getD ticks.length false = finalStop
  rw [List.getD_append_right _ _ _ _ (by simp)]
  simp

/-! ## Cutting loops (`process_task.py`, `_cutting_loop` and `_image_flow_loop`)

The loops are modelled over the match list and a per-segment oracle giving
the observable effect of each external call.  `attempted` records the
indices whose iteration got past the stop check; `processed` mirrors the
Python return value; the outcome distinguishes a normal return (regular end
or stop-break) from an exception propagating out of the loop. -/

/-- Per-segment oracle for `_cutting_loop`: the stop flag at the top of the
iteration, whether the audio-extraction call succeeds, whether
`_find_video_by_vid_any_ext` finds a source, and whether the direct-copy
command and the AAC re-encode retry succeed. -/
structure CutSegEnv where
  stop : Bool
  audioOk : Bool
  hasVideoSrc : Bool
  copyOk : Bool
  aacOk : Bool
deriving DecidableEq, Repr

/-- How a loop run ended. -/
inductive LoopOutcome where
  | completed
  | stoppedBreak
  | raised
deriving DecidableEq, Repr

/-- Observable result of a loop run. -/
structure LoopRun where
  attempted : List Nat
  processed : Nat
  outcome : LoopOutcome
deriving DecidableEq, Repr

/-- `_cutting_loop`, one iteration per match, in source order: stop check
(break), audio cut (`except: log; continue`), video-source lookup (audio-only
log when missing), `try: run(cmd_copy) except: run(cmd_aac)` — the retry is
*outside* any handler, so its failure propagates out of the loop — then
`processed += 1`.  (The periodic `gc_func` call has no observable effect and
is not modelled.) -/
def cuttingLoopAux (env : Nat → CutSegEnv) :
    List (Nat × ℚ × ℚ × String) → Nat → Nat → LoopRun
  | [], _, processed => ⟨[], processed, LoopOutcome.completed⟩
  | _ :: ms, pos, processed =>
    let e := env pos
    if e.stop then ⟨[], processed, LoopOutcome.stoppedBreak⟩
    else if e.audioOk = false then
      let r := cuttingLoopAux env ms (pos + 1) processed
      ⟨pos :: r.attempted, r.processed, r.outcome⟩
    else if e.hasVideoSrc = false then
      let r := cuttingLoopAux env ms (pos + 1) (processed + 1)
      ⟨pos :: r.attempted, r.processed, r.outcome⟩
    else if e.copyOk then
      let r := cuttingLoopAux env ms (pos + 1) (processed + 1)
      ⟨pos :: r.attempted, r.processed, r.outcome⟩
    else if e.aacOk then
      let r := cuttingLoopAux env ms (pos + 1) (processed + 1)
      ⟨pos :: r.attempted, r.processed, r.outcome⟩
    else ⟨[pos], processed, LoopOutcome.raised⟩

/-- `_cutting_loop(matches, ...)`. -/
def cuttingLoop (env : Nat → CutSegEnv) (segs : List (Nat × ℚ × ℚ × String)) : LoopRun :=
  cuttingLoopAux env segs 0 0

/-- Per-segment oracle for `_image_flow_loop`: stop flag, audio-cut success,
and success of the hardware-profile and software-fallback
`_make_image_clip` calls. -/
structure ImgSegEnv where
  stop : Bool
  audioOk : Bool
  hwOk : Bool
  swOk : Bool
deriving DecidableEq, Repr

/-- The round-robin visual pick of `_image_flow_loop`: up to `len(files)`
tries, each reading `files[cursor % len(files)]` and incrementing the
cursor, stopping at the first readable file (`files` is the readability of
each pre-scanned asset). -/
def pickVisualAux (files : List Bool) : Nat → Nat → Option Nat × Nat
  | cursor, 0 => (none, cursor)
  | cursor, tries + 1 =>
    if files.getD (cursor % files.length) false then
      (some (cursor % files.length), cursor + 1)
    else pickVisualAux files (cursor + 1) tries

/-- `while tries < len(files): ...` starting at `cursor`. -/
def pickVisual (files : List Bool) (cursor : Nat) : Option Nat × Nat :=
  pickVisualAux files cursor files.length

/-- `_image_flow_loop`, one iteration per match, in source order: stop check
(break), audio cut (`except: log; continue`), round-robin visual pick
(`continue` when nothing is readable), `try: _make_image_clip(hw) except:
_make_image_clip(sw)` — the software fallback is *outside* any handler, so
its failure propagates out of the loop — then `processed += 1`. -/
def imageFlowLoopAux (env : Nat → ImgSegEnv) (files : List Bool) :
    List (Nat × ℚ × ℚ × String) → Nat → Nat → Nat → LoopRun
  | [], _, _, processed => ⟨[], processed, LoopOutcome.completed⟩
  | _ :: ms, pos, cursor, processed =>
    let e := env pos
    if e.stop then ⟨[], processed, LoopOutcome.stoppedBreak⟩
    else if e.audioOk = false then
      let r := imageFlowLoopAux env files ms (pos + 1) cursor processed
      ⟨pos :: r.attempted, r.processed, r.outcome⟩
    else
      let pick := pickVisual files cursor
      match pick.1 with
      | none =>
        let r := imageFlowLoopAux env files ms (pos + 1) pick.2 processed
        ⟨pos :: r.attempted, r.processed, r.outcome⟩
      | some _ =>
        if e.hwOk then
          let r := imageFlowLoopAux env files ms (pos + 1) pick.2 (processed + 1)
          ⟨pos :: r.attempted, r.processed, r.outcome⟩
        else if e.swOk then
          let r := imageFlowLoopAux env files ms (pos + 1) pick.2 (processed + 1)
          ⟨pos :: r.attempted, r.processed, r.outcome⟩
        else ⟨[pos], processed, LoopOutcome.raised⟩

/-- `_image_flow_loop(matches, ..., files, start_idx, ...)`. -/
def imageFlowLoop (env : Nat → ImgSegEnv) (files : List Bool) (startIdx : Nat)
    (segs : List (Nat × ℚ × ℚ × String)) : LoopRun :=
  imageFlowLoopAux env files segs 0 startIdx 0

/-! ## C1 — non-fatal segment failure -/

/-- Oracle for the C1 counterexample: no cancellation, audio succeeds, a
video source exists, and both the direct-copy command and the AAC re-encode
retry fail for every segment. -/
def c1BadEnv : Nat → CutSegEnv := fun _ => ⟨false, true, true, false, false⟩

/-- **C1, as stated, is false** — when both the hardware-tier command and its
one software-tier retry fail for segment 0 of a two-segment batch (no
cancellation active), `_cutting_loop` does *not* go on to segment 1 and does
*not* return normally: the exception of the unprotected retry propagates out
of the loop.  Concretely the run attempts only segment 0 and ends `raised`. -/
theorem c1_counterexample :
    cuttingLoop c1BadEnv [(1, 0, 1, "a"), (2, 1, 2, "b")] =
      ⟨[0], 0, LoopOutcome.raised⟩
    ∧ ¬(1 ∈ (cuttingLoop c1BadEnv [(1, 0, 1, "a"), (2, 1, 2, "b")]).attempted
        ∧ (cuttingLoop c1BadEnv [(1, 0, 1, "a"), (2, 1, 2, "b")]).outcome
            ≠ LoopOutcome.raised) := by
  constructor
  · rfl
  · intro h
    exact absurd (by rfl) h.2

theorem cuttingLoopAux_no_raise (env : Nat → CutSegEnv) (n : Nat)
    (hstop : ∀ i, i < n → (env i).stop = false)
    (hfb : ∀ i, i < n → (env i).copyOk = false → (env i).aacOk = true) :
    ∀ (ms : List (Nat × ℚ × ℚ × String)) (pos processed : Nat),
      pos + ms.length = n →
      (cuttingLoopAux env ms pos processed).attempted = List.range' pos ms.length
      ∧ (cuttingLoopAux env ms pos processed).outcome = LoopOutcome.completed := by
  intro ms
  induction ms with
  | nil => intro pos processed _; exact ⟨rfl, rfl⟩
  | cons m ms ih =>
    intro pos processed hlen
    have hpos : pos < n := by
      simp only [List.length_cons] at hlen; omega
    have hrec : pos + 1 + ms.length = n := by
      simp only [List.length_cons] at hlen; omega
    have hs := hstop pos hpos
    rw [List.length_cons, List.range'_succ]
    simp only [cuttingLoopAux, hs]
    cases haud : (env pos).audioOk with
    | false =>
      obtain ⟨iha, iho⟩ := ih (pos + 1) processed hrec
      simp [haud, iha, iho]
    | true =>
      cases hsrc : (env pos).hasVideoSrc with
      | false =>
        obtain ⟨iha, iho⟩ := ih (pos + 1) (processed + 1) hrec
        simp [haud, hsrc, iha, iho]
      | true =>
        cases hcopy : (env pos).copyOk with
        | true =>
          obtain ⟨iha, iho⟩ := ih (pos + 1) (processed + 1) hrec
          simp [haud, hsrc, hcopy, iha, iho]
        | false =>
          have haac := hfb pos hpos hcopy
          obtain ⟨iha, iho⟩ := ih (pos + 1) (processed + 1) hrec
          simp [haud, hsrc, hcopy, haac, iha, iho]

theorem imageFlowLoopAux_no_raise (env : Nat → ImgSegEnv) (files : List Bool) (n : Nat)
    (hstop : ∀ i, i < n → (env i).stop = false)
    (hfb : ∀ i, i < n → (env i).hwOk = false → (env i).swOk = true) :
    ∀ (ms : List (Nat × ℚ × ℚ × String)) (pos cursor processed : Nat),
      pos + ms.length = n →
      (imageFlowLoopAux env files ms pos cursor processed).attempted
          = List.range' pos ms.length
      ∧ (imageFlowLoopAux env files ms pos cursor processed).outcome
          = LoopOutcome.completed := by
  intro ms
  induction ms with
  | nil => intro pos cursor processed _; exact ⟨rfl, rfl⟩
  | cons m ms ih =>
    intro pos cursor processed hlen
    have hpos : pos < n := by
      simp only [List.length_cons] at hlen; omega
    have hrec : pos + 1 + ms.length = n := by
      simp only [List.length_cons] at hlen; omega
    have hs := hstop pos hpos
    rw [List.length_cons, List.range'_succ]
    simp only [imageFlowLoopAux, hs]
    cases haud : (env pos).audioOk with
    | false =>
      obtain ⟨iha, iho⟩ := ih (pos + 1) cursor processed hrec
      simp [haud, iha, iho]
    | true =>
      rcases hpick : (pickVisual files cursor).1 with _ | j
      · obtain ⟨iha, iho⟩ := ih (pos + 1) (pickVisual files cursor).2 processed hrec
        simp [haud, hpick, iha, iho]
      · cases hhw : (env pos).hwOk with
        | true =>
          obtain ⟨iha, iho⟩ := ih (pos + 1) (pickVisual files cursor).2 (processed + 1) hrec
          simp [haud, hpick, hhw, iha, iho]
        | false =>
          have hsw := hfb pos hpos hhw
          obtain ⟨iha, iho⟩ := ih (pos + 1) (pickVisual files cursor).2 (processed + 1) hrec
          simp [haud, hpick, hhw, hsw, iha, iho]

/-- **C1 (amended)** — Per-segment failures are non-fatal *except* for a
double video-synthesis failure: in either loop, if no cancellation occurs
and every segment whose first-tier video command fails has a succeeding
second-tier retry, then every segment `0..n-1` is attempted (audio-cut
failures and missing/unreadable visual sources included) and the loop
returns normally.  When both tiers fail for a segment the exception
propagates and the remaining segments are not attempted (see the
counterexample). -/
theorem c1_segment_failure_amended :
    (∀ (env : Nat → CutSegEnv) (segs : List (Nat × ℚ × ℚ × String)),
      (∀ i, i < segs.length → (env i).stop = false) →
      (∀ i, i < segs.length → (env i).copyOk = false → (env i).aacOk = true) →
      (cuttingLoop env segs).attempted = List.range segs.length
      ∧ (cuttingLoop env segs).outcome = LoopOutcome.completed)
    ∧ (∀ (env : Nat → ImgSegEnv) (files : List Bool) (startIdx : Nat)
         (segs : List (Nat × ℚ × ℚ × String)),
      (∀ i, i < segs.length → (env i).stop = false) →
      (∀ i, i < segs.length → (env i).hwOk = false → (env i).swOk = true) →
      (imageFlowLoop env files startIdx segs).attempted = List.range segs.length
      ∧ (imageFlowLoop env files startIdx segs).outcome = LoopOutcome.completed) := by
  constructor
  · intro env segs hstop hfb
    have := cuttingLoopAux_no_raise env segs.length hstop hfb segs 0 0 (by simp)
    rwa [← List.range_eq_range'] at this
  · intro env files startIdx segs hstop hfb
    have := imageFlowLoopAux_no_raise env files segs.length hstop hfb segs 0 startIdx 0
      (by simp)
    rwa [← List.range_eq_range'] at this

/-- Oracle for the C1 amended witness: segment 0's audio cut fails, segment
1's direct copy fails but the AAC retry succeeds. -/
def c1GoodEnv : Nat → CutSegEnv := fun i =>
  if i = 0 then ⟨false, false, true, true, true⟩ else ⟨false, true, true, false, true⟩

/-- Witness for the amended C1: with an audio failure at segment 0 and a
first-tier video failure (recovered by the retry) at segment 1, both
segments are attempted and `_cutting_loop` returns normally. -/
theorem c1_segment_failure_amended_witness :
    (cuttingLoop c1GoodEnv [(1, 0, 1, "a"), (2, 1, 2, "b")]).attempted = List.range 2
    ∧ (cuttingLoop c1GoodEnv [(1, 0, 1, "a"), (2, 1, 2, "b")]).outcome
        = LoopOutcome.completed :=
  c1_segment_failure_amended.1 c1GoodEnv [(1, 0, 1, "a"), (2, 1, 2, "b")]
    (by decide) (by decide)

/-! ## C6 — cancellation terminates the process and stops the loops -/

theorem cuttingLoopAux_stop_bound (env : Nat → CutSegEnv) (k : Nat)
    (hstop : ∀ i, k ≤ i → (env i).stop = true) :
    ∀ (ms : List (Nat × ℚ × ℚ × String)) (pos processed : Nat),
      ∀ j ∈ (cuttingLoopAux env ms pos processed).attempted, j < k := by
  intro ms
  induction ms with
  | nil => intro pos processed j hj; simp [cuttingLoopAux] at hj
  | cons m ms ih =>
    intro pos processed j hj
    by_cases hp : (env pos).stop = true
    · simp [cuttingLoopAux, hp] at hj
    · have hpos : pos < k := by
        by_contra hge
        exact hp (hstop pos (by omega))
      simp only [cuttingLoopAux, hp, if_false, Bool.not_eq_true] at hj
      rcases Bool.eq_false_or_eq_true (env pos).audioOk with haud | haud <;>
        rcases Bool.eq_false_or_eq_true (env pos).hasVideoSrc with hsrc | hsrc <;>
        rcases Bool.eq_false_or_eq_true (env pos).copyOk with hcopy | hcopy <;>
        rcases Bool.eq_false_or_eq_true (env pos).aacOk with haac | haac <;>
        simp [haud, hsrc, hcopy, haac] at hj <;>
        rcases hj with rfl | hj <;>
        first
          | exact hpos
          | exact ih (pos + 1) _ j hj

theorem imageFlowLoopAux_stop_bound (env : Nat → ImgSegEnv) (files : List Bool) (k : Nat)
    (hstop : ∀ i, k ≤ i → (env i).stop = true) :
    ∀ (ms : List (Nat × ℚ × ℚ × String)) (pos cursor processed : Nat),
      ∀ j ∈ (imageFlowLoopAux env files ms pos cursor processed).attempted, j < k := by
  intro ms
  induction ms with
  | nil => intro pos cursor processed j hj; simp [imageFlowLoopAux] at hj
  | cons m ms ih =>
    intro pos cursor processed j hj
    by_cases hp : (env pos).stop = true
    · simp [imageFlowLoopAux, hp] at hj
    · have hpos : pos < k := by
        by_contra hge
        exact hp (hstop pos (by omega))
      simp only [imageFlowLoopAux, hp, if_false, Bool.not_eq_true] at hj
      rcases Bool.eq_false_or_eq_true (env pos).audioOk with haud | haud <;>
        rcases Bool.eq_false_or_eq_true (env pos).hwOk with hhw | hhw <;>
        rcases Bool.eq_false_or_eq_true (env pos).swOk with hsw | hsw <;>
        rcases hpick : (pickVisual files cursor).1 with _ | jj <;>
        simp [haud, hhw, hsw, hpick] at hj <;>
        rcases hj with rfl | hj <;>
        first
          | exact hpos
          | exact ih (pos + 1) _ _ j hj

/-- **C6** — Cancellation semantics: (i) the moment a poll of the stream
loop observes the stop flag, the external process receives `terminate`, then
`kill` exactly when the 2-second grace wait fails, and the call raises the
`STOPPED` failure; (ii) the grace-period action sequences are `[terminate]`
on a successful wait and `[terminate, kill]` otherwise; (iii)–(iv) in both
per-segment loops the stop flag is checked at the top of every iteration
before any work, so once the flag is set from segment `k` on, no segment with
index `≥ k` is ever attempted. -/
theorem c6_cancellation (t : Tick) (rest : List Tick) (acc : List String)
    (hstop : t.stopFlag = true)
    (envC : Nat → CutSegEnv) (envI : Nat → ImgSegEnv) (files : List Bool) (k : Nat)
    (segsC segsI : List (Nat × ℚ × ℚ × String)) (startIdx : Nat)
    (hkC : ∀ i, k ≤ i → (envC i).stop = true)
    (hkI : ∀ i, k ≤ i → (envI i).stop = true) :
    streamLoop (t :: rest) acc = StreamOutcome.stopped (termActions t.waitOk)
    ∧ (termActions true = [ProcAction.terminate]
        ∧ termActions false = [ProcAction.terminate, ProcAction.kill])
    ∧ (∀ j ∈ (cuttingLoop envC segsC).attempted, j < k)
    ∧ (∀ j ∈ (imageFlowLoop envI files startIdx segsI).attempted, j < k) := by
  refine ⟨by simp [streamLoop, hstop], ⟨rfl, rfl⟩, ?_, ?_⟩
  · exact cuttingLoopAux_stop_bound envC k hkC segsC 0 0
  · exact imageFlowLoopAux_stop_bound envI files k hkI segsI 0 startIdx 0

/-- Oracle with the stop flag permanently set, for the C6 witness. -/
def envAllStopC : Nat → CutSegEnv := fun _ => ⟨true, true, true, true, true⟩

/-- Image-loop oracle with the stop flag permanently set, for the C6 witness. -/
def envAllStopI : Nat → ImgSegEnv := fun _ => ⟨true, true, true, true⟩

/-- Witness for C6: a poll that observes the stop flag (with a failing grace
wait) yields `terminate` then `kill` and the `STOPPED` outcome; with the flag
set from segment 0 on, neither loop attempts any segment. -/
theorem c6_cancellation_witness :
    streamLoop (Tick.mk true false false none none :: []) []
        = StreamOutcome.stopped (termActions false)
    ∧ (termActions true = [ProcAction.terminate]
        ∧ termActions false = [ProcAction.terminate, ProcAction.kill])
    ∧ (∀ j ∈ (cuttingLoop envAllStopC [(1, 0, 1, "a")]).attempted, j < 0)
    ∧ (∀ j ∈ (imageFlowLoop envAllStopI [true] 0 [(1, 0, 1, "a")]).attempted, j < 0) :=
  c6_cancellation (Tick.mk true false false none none) [] [] rfl
    envAllStopC envAllStopI [true] 0 [(1, 0, 1, "a")] [(1, 0, 1, "a")] 0
    (fun _ _ => rfl) (fun _ _ => rfl)

/-! ## C7 — the AAC re-encode retry command -/

/-- `cmd_copy` as built by `_cutting_loop` (video-cut mode, direct
audio-stream copy). -/
def buildCmdCopy (threads : List String)
    (videoSrc duration encName encPreset vOut : String) : List String :=
  ["ffmpeg", "-y"] ++ threads ++
  ["-ss", "0", "-i", videoSrc, "-t", duration,
   "-vf", "scale=trunc(iw/2)*2:trunc(ih/2)*2,fps=30",
   "-map", "0:v:0", "-map", "0:a?",
   "-c:v", encName, "-preset", encPreset,
   "-pix_fmt", "yuv420p", "-c:a", "copy",
   "-shortest", "-map_metadata", "-1", "-loglevel", "error", vOut]

/-- The retry command `cmd_aac`, exactly as the source computes it:
`cmd_aac = cmd_copy[:]`, `cmd_aac[cmd_aac.index("-c:a") + 1] = "aac"`,
`cmd_aac.insert(cmd_aac.index("-shortest"), "192k")`,
`cmd_aac.insert(cmd_aac.index("-shortest"), "-b:a")`. -/
def buildCmdAac (cmdCopy : List String) : List String :=
  let l1 := cmdCopy.set (cmdCopy.findIdx (· == "-c:a") + 1) "aac"
  let l2 := l1.insertIdx (l1.findIdx (· == "-shortest")) "192k"
  l2.insertIdx (l2.findIdx (· == "-shortest")) "-b:a"

/-- **C7 — the code contradicts the claim (code bug)** — the rebuilt retry
vector does substitute `aac` for the copy codec, but the two `insert` calls
(both at the current index of `"-shortest"`) place `"192k"` *before*
`"-b:a"`: the resulting argument vector is `... -c:a aac ... 192k -b:a
-shortest ...`, in which `-b:a` is never immediately followed by `192k` (it
is instead followed by `-shortest`, an invalid value for a bitrate option).
The claim/spec's intended `-b:a 192k` pair never occurs. -/
theorem c7_aac_retry_flag_order :
    buildCmdAac (buildCmdCopy [] "src.mp4" "1.5" "h264_nvenc" "p1" "out.mp4") =
      ["ffmpeg", "-y", "-ss", "0", "-i", "src.mp4", "-t", "1.5",
       "-vf", "scale=trunc(iw/2)*2:trunc(ih/2)*2,fps=30",
       "-map", "0:v:0", "-map", "0:a?",
       "-c:v", "h264_nvenc", "-preset", "p1",
       "-pix_fmt", "yuv420p", "-c:a", "aac",
       "192k", "-b:a", "-shortest", "-map_metadata", "-1", "-loglevel", "error",
       "out.mp4"]
    ∧ (∀ i, i < (buildCmdAac
          (buildCmdCopy [] "src.mp4" "1.5" "h264_nvenc" "p1" "out.mp4")).length →
        ¬((buildCmdAac (buildCmdCopy [] "src.mp4" "1.5" "h264_nvenc" "p1"
              "out.mp4")).getD i "" = "-b:a"
          ∧ (buildCmdAac (buildCmdCopy [] "src.mp4" "1.5" "h264_nvenc" "p1"
              "out.mp4")).getD (i + 1) "" = "192k")) := by
  constructor
  · rfl
  · decide

/-! ## C10 — a set stop flag discards even a successful completion -/

/-- **C10** — If the stop flag is monotone over the polls of one
`execute_safe` call (once set it stays set) and is set at *any* poll before
the call returns, then the call never returns a success result; in
particular, when the polling loop has already completed with an exit code —
even code 0 — the post-loop re-check raises the `STOPPED` failure and the
completed process's result is discarded. -/
theorem c10_stop_discards_success (entryStop : Bool) (ticks : List Tick)
    (finalStop check : Bool)
    (hmono : FlagMono (stopPolls entryStop ticks finalStop))
    (hset : ∃ i, i < (stopPolls entryStop ticks finalStop).length ∧
      (stopPolls entryStop ticks finalStop).getD i false = true) :
    (∀ (code : Int) (err : List String),
      executeSafeStream entryStop ticks finalStop check ≠ ExecResult.ok code err)
    ∧ (∀ (code : Int) (acc : List String),
        streamLoop ticks [] = StreamOutcome.exited code acc →
        executeSafeStream entryStop ticks finalStop check = ExecResult.errStopped) := by
  have hfin : finalStop = true := by
    obtain ⟨i, hi, hv⟩ := hset
    have hlast := hmono i hi (ticks.length + 1)
      (by rw [stopPolls_length]; omega)
      (by rw [stopPolls_length] at hi; omega) hv
    rwa [stopPolls_last] at hlast
  constructor
  · intro code err
    cases hentry : entryStop with
    | true => simp [executeSafeStream, hentry]
    | false =>
      cases hloop : streamLoop ticks [] with
      | stopped a => simp [executeSafeStream, hentry, hloop]
      | timeout a => simp [executeSafeStream, hentry, hloop]
      | ranOut => simp [executeSafeStream, hentry, hloop]
      | exited c acc => simp [executeSafeStream, hentry, hloop, hfin]
  · intro code acc hloop
    cases hentry : entryStop with
    | true => simp [executeSafeStream, hentry]
    | false => simp [executeSafeStream, hentry, hloop, hfin]

/-- Witness for C10: the process exits with code 0 at the only poll, the
stop flag becomes set before the post-loop re-check (polls
`[false, false, true]`, monotone), and the call yields `STOPPED`, not the
success result. -/
theorem c10_stop_discards_success_witness :
    (∀ (code : Int) (err : List String),
      executeSafeStream false [Tick.mk false false true none (some 0)] true true
        ≠ ExecResult.ok code err)
    ∧ (∀ (code : Int) (acc : List String),
        streamLoop [Tick.mk false false true none (some 0)] []
          = StreamOutcome.exited code acc →
        executeSafeStream false [Tick.mk false false true none (some 0)] true true
          = ExecResult.errStopped) :=
  c10_stop_discards_success false [Tick.mk false false true none (some 0)] true true
    (by unfold FlagMono; decide) ⟨2, by decide, by decide⟩

end AutoApp
